import Mathlib

/-!
# Verification of the roundlib numeric engine

Shallow embedding of the `rounder` namespace of `roundlib.hpp`: the exact
decimal value type `number`, the rounding algorithms (`keep_three_sig`,
`pdg_rule`, `pdg_round`, `twodig_round`, `round_to_prec`), the error
combiner (`quadrature_sum`, `symmetrize_errors`), the precision
reconciliation (`detail_round`), and the renderer (`formatter_format`,
`format_numbers`), together with the textual parsing and serialization
(`number.from_string`, `number.to_string`).

Conventions of the embedding:
* `std::uint64_t` mantissas are `Nat`; the single place where the C++ code
  guards against 64-bit overflow (`from_string`) carries the same explicit
  guard against `UINT64_MAX`.  C `int` exponents are `Int`; the sentinel
  constants `INT_MAX`/`INT_MIN` used by `rounder::detail::round` are the
  concrete two's-complement 32-bit values, as in the source.
* Strings are `List Char`.
* `std::exit(1)` (fatal errors) becomes `Except.error`; non-fatal
  diagnostic prints become an explicit `List Warning` component.
* IEEE-754 `double` values are modeled as exact rationals (the
  unnormalized pair type `dq`); see `from_sqrt` and `from_rat` for the two
  places where a double is turned back into a decimal `number`.
* C++ loops are translated as structural recursions on an explicit
  iteration count so that every definition evaluates inside the kernel.
-/

/-- `rounder::number`: mantissa `n`, decimal exponent `p` (the value reads
as `sgn? * n * 10^p`), and the sign/direction tag `sgn ∈ {-1, 0, +1}`. -/
structure number where
  n : Nat
  p : Int
  sgn : Int
deriving DecidableEq, Repr

instance : Inhabited number := ⟨⟨0, 0, 0⟩⟩

deriving instance DecidableEq for Except

/-- Loop of `rounder::detail::digit_count`; the first argument is the fuel
(an upper bound on the remaining loop iterations). -/
def digit_count_fuel : Nat → Nat → Nat
  | 0, _ => 0
  | _ + 1, 0 => 0
  | fuel + 1, v + 1 => digit_count_fuel fuel ((v + 1) / 10) + 1

/-- `rounder::detail::digit_count`: decimal digit count of a non-negative
integer, counting `0` as one digit. -/
def digit_count (v : Nat) : Nat :=
  if v = 0 then 1 else digit_count_fuel v v

/-- Non-fatal diagnostics printed by the engine. -/
inductive Warning where
  /-- "not enough significant digits, padding with zeros" (`keep_three_sig`) -/
  | padding
  /-- "asymmetric errors do not seem to come in pairs" (`quadrature_sum`) -/
  | unpaired
  /-- "asymmetric errors do not seem to come in pairs" (`symmetrize_errors`) -/
  | unpairedSym
deriving DecidableEq, Repr

/-- The `while (drop--) { n.n /= 10; ++n.p; }` loop of `keep_three_sig`. -/
def drop_digits : Nat → number → number
  | 0, v => v
  | k + 1, ⟨n, p, sgn⟩ => drop_digits k ⟨n / 10, p + 1, sgn⟩

/-- `rounder::detail::keep_three_sig`: scale the mantissa so that exactly
three significant digits remain; pad short values with zeros, emitting a
`padding` warning unless `quiet`. -/
def keep_three_sig : number → Bool → number × List Warning
  | ⟨n, p, sgn⟩, quiet =>
    let nd := digit_count n
    let w : List Warning := if nd < 3 ∧ quiet = false then [.padding] else []
    if nd = 1 then (⟨n * 100, p - 2, sgn⟩, w)
    else if nd = 2 then (⟨n * 10, p - 1, sgn⟩, w)
    else (drop_digits (nd - 3) ⟨n, p, sgn⟩, w)

/-- `rounder::detail::pdg_rule`: the PDG rounding rule on a three-digit
mantissa; fatal error when the mantissa does not have exactly 3 digits. -/
def pdg_rule : number → Except (List Char) number
  | ⟨n, p, sgn⟩ =>
    if digit_count n ≠ 3 then
      Except.error ("number does not have 3 digits").data
    else if 100 ≤ n ∧ n ≤ 354 then
      let u := n % 10
      let n1 := n / 10
      Except.ok ⟨if u ≥ 5 then n1 + 1 else n1, p + 1, sgn⟩
    else if 355 ≤ n ∧ n ≤ 949 then
      let d := (n / 10) % 10
      let n1 := n / 100
      Except.ok ⟨if d ≥ 5 then n1 + 1 else n1, p + 2, sgn⟩
    else
      Except.ok ⟨10, p + 2, sgn⟩

/-- `rounder::detail::pdg_round`: `keep_three_sig` then `pdg_rule`. -/
def pdg_round (v : number) (quiet : Bool) :
    Except (List Char) (number × List Warning) :=
  let kw := keep_three_sig v quiet
  match pdg_rule kw.1 with
  | Except.error e => Except.error e
  | Except.ok r => Except.ok (r, kw.2)

/-- `rounder::detail::twodig_round`: `keep_three_sig` then round-half-up of
the last digit, leaving two of the three digits. -/
def twodig_round (v : number) (quiet : Bool) : number × List Warning :=
  let kw := keep_three_sig v quiet
  match kw.1 with
  | ⟨n, p, sgn⟩ =>
    let u := n % 10
    (⟨if u ≥ 5 then n / 10 + 1 else n / 10, p + 1, sgn⟩, kw.2)

/-- The `while (n.p < prec)` loop of `round_to_prec`: the first argument is
the number of remaining iterations; the state is the pair
`(mantissa, last dropped digit)`. -/
def round_loop : Nat → Nat → Nat → Nat × Nat
  | 0, n, d => (n, d)
  | k + 1, n, _ => round_loop k (n / 10) (n % 10)

/-- `rounder::detail::round_to_prec`: shift the mantissa right until the
exponent reaches `prec`, rounding half-up on the last dropped digit; fatal
error when the value's exponent already exceeds `prec`. -/
def round_to_prec : number → Int → Except (List Char) number
  | ⟨n, p, sgn⟩, prec =>
    if p > prec then
      Except.error ("cannot round to precision").data
    else
      match round_loop (prec - p).toNat n 0 with
      | (n1, d) => Except.ok ⟨if d ≥ 5 then n1 + 1 else n1, prec, sgn⟩

/-- Claim C1: on every value already padded to exactly three significant
digits, `pdg_round` maps the boundary mantissas as follows: `100 ↦ 10`
(exponent +1), `354 ↦ 35` (+1), `355 ↦ 4` (+2), `949 ↦ 9` (+2),
`950 ↦ 10` (+2), `999 ↦ 10` (+2), with no warning and no fatal error. -/
theorem C1_pdg_boundaries (p s : Int) (quiet : Bool) :
    pdg_round ⟨100, p, s⟩ quiet = Except.ok (⟨10, p + 1, s⟩, []) ∧
    pdg_round ⟨354, p, s⟩ quiet = Except.ok (⟨35, p + 1, s⟩, []) ∧
    pdg_round ⟨355, p, s⟩ quiet = Except.ok (⟨4, p + 2, s⟩, []) ∧
    pdg_round ⟨949, p, s⟩ quiet = Except.ok (⟨9, p + 2, s⟩, []) ∧
    pdg_round ⟨950, p, s⟩ quiet = Except.ok (⟨10, p + 2, s⟩, []) ∧
    pdg_round ⟨999, p, s⟩ quiet = Except.ok (⟨10, p + 2, s⟩, []) :=
  ⟨rfl, rfl, rfl, rfl, rfl, rfl⟩

/-- Exact-rational model of an IEEE-754 `double`: an unnormalized
numerator/denominator pair (the denominator is positive in all uses).
The engine's `double` arithmetic (`quadrature_sum`, `symmetrize_errors`)
is idealized as exact rational arithmetic. -/
structure dq where
  num : Int
  den : Nat
deriving DecidableEq, Repr

def dq.mul (x y : dq) : dq := ⟨x.num * y.num, x.den * y.den⟩

def dq.add (x y : dq) : dq :=
  ⟨x.num * (y.den : Int) + y.num * (x.den : Int), x.den * y.den⟩

def dq.sub (x y : dq) : dq :=
  ⟨x.num * (y.den : Int) - y.num * (x.den : Int), x.den * y.den⟩

/-- `fabs` on the exact-rational double model. -/
def dq.abs (x : dq) : dq := ⟨(x.num.natAbs : Int), x.den⟩

/-- `<` on the exact-rational double model (positive denominators). -/
def dq.lt (x y : dq) : Bool := x.num * (y.den : Int) < y.num * (x.den : Int)

def dq.inv (x : dq) : dq :=
  if x.num ≥ 0 then ⟨(x.den : Int), x.num.toNat⟩ else ⟨-(x.den : Int), (-x.num).toNat⟩

def dq.div (x y : dq) : dq := x.mul y.inv

/-- `rounder::number::to_double`: `sgn? * n * 10^p`, idealized as an exact
rational (the C++ version computes in binary floating point). -/
def to_double : number → dq
  | ⟨n, p, sgn⟩ =>
    let s : Int := if sgn = 0 then 1 else sgn
    if p ≥ 0 then ⟨s * (n : Int) * 10 ^ p.toNat, 1⟩
    else ⟨s * (n : Int), 10 ^ (-p).toNat⟩

/-- Bisection loop for the integer square root (fuel-based so that the
kernel can evaluate it); invariant `lo² ≤ n < hi²`. -/
def isqrt_go (n : Nat) : Nat → Nat → Nat → Nat
  | 0, lo, _ => lo
  | f + 1, lo, hi =>
    let mid := (lo + hi) / 2
    if mid = lo then lo
    else if mid * mid ≤ n then isqrt_go n f mid hi else isqrt_go n f lo mid

/-- Integer square root: the largest `r` with `r² ≤ n` (for `n < 2^128`). -/
def isqrt (n : Nat) : Nat := isqrt_go n 128 0 (n + 1)

/-- Models `number::from_numeric(std::sqrt(sum))`: the IEEE-754 square root
followed by `std::to_chars` shortest-decimal conversion and re-parsing is
idealized as the real square root evaluated to a fixed precision of 6
decimal digits below the integer point (mantissa `⌊√(x·10¹²)⌋`, exponent
`-6`).  The engine only ever consumes the leading three significant digits
and the decimal position of this value, on which the idealization and the
IEEE computation agree for the inputs considered here. -/
def from_sqrt (x : dq) : number :=
  ⟨isqrt ((x.num * 10 ^ 12).toNat / x.den), -6, 0⟩

/-- Fuel-based search for the least `k` such that `x·10^k` is an integer. -/
def dec_exp_fuel : Nat → dq → Nat
  | 0, _ => 0
  | f + 1, x =>
    if x.num % (x.den : Int) = 0 then 0
    else dec_exp_fuel f ⟨x.num * 10, x.den⟩ + 1

/-- Models `number::from_numeric(d)` for a nonnegative `double` `d` whose
value is a finite decimal fraction: the shortest-decimal conversion yields
the minimal-length decimal digit string, i.e. mantissa `x·10^k` and
exponent `-k` for the least such `k`. -/
def from_rat (x : dq) : number :=
  let k := dec_exp_fuel 64 x
  ⟨((x.num * 10 ^ k) / (x.den : Int)).toNat, -(k : Int), 0⟩

/-- One step of the compensated (Kahan) summation loop of
`rounder::detail::quadrature_sum`; the state is `(sum, c, cnt, dp)`. -/
def quad_step : dq × dq × Nat × dq → number → dq × dq × Nat × dq
  | (sum, c, cnt, dp), e =>
    let v := to_double e
    let cnt1 := if e.sgn ≠ 0 then cnt + 1 else cnt
    let v1 := if e.sgn ≠ 0 then v.mul ⟨1, 2⟩ else v
    let dp1 := if e.sgn ≠ 0 then dp.mul v1 else dp
    let y := (v1.mul v1).sub c
    let y1 := if cnt1 % 2 = 0 then y.add (dq.mul ⟨1, 2⟩ dp1) else y
    let t := sum.add y1
    (t, (t.sub sum).sub y1, cnt1, dp1)

/-- `rounder::detail::quadrature_sum`: the quadrature sum of the
uncertainties, halving asymmetric entries and adding a cross-term
correction once every two asymmetric entries; a single-element list is
returned unchanged.  An odd count of asymmetric entries produces the
`unpaired` warning. -/
def quadrature_sum : List number → number × List Warning
  | [v] => (v, [])
  | vec =>
    match vec.foldl quad_step (⟨0, 1⟩, ⟨0, 1⟩, 0, ⟨1, 1⟩) with
    | (sum, _, cnt, _) =>
      (from_sqrt sum, if cnt % 2 ≠ 0 then [.unpaired] else [])

/-- Body of the `symmetrize_errors` loop in the asymmetric case:
`ne1 = errs[i1]` is asymmetric, `ne2 = errs[i2]` (`i2 = i1 - 1`); warn if
`ne2` is symmetric, then merge the two into their average when their
magnitudes are within the 10% threshold. -/
def sym_step (i1 i2 : Nat) (errs : List number) : List number × List Warning :=
  let ne1 := errs.getD i1 ⟨0, 0, 0⟩
  let ne2 := errs.getD i2 ⟨0, 0, 0⟩
  let w : List Warning := if ne2.sgn = 0 then [.unpairedSym] else []
  let e1 := (to_double ne1).abs
  let e2 := (to_double ne2).abs
  if ((e1.div e2).sub ⟨1, 1⟩).abs.lt ⟨1, 10⟩ then
    ((errs.set i2 (from_rat (dq.mul ⟨1, 2⟩ (e1.add e2)))).eraseIdx i1, w)
  else (errs, w)

/-- The `for (int i = size-1; i > 0; --i)` loop of `symmetrize_errors`;
the first argument is the current loop index `i`. -/
def sym_loop : Nat → List number → List number × List Warning
  | 0, errs => (errs, [])
  | 1, errs =>
    if (errs.getD 1 ⟨0, 0, 0⟩).sgn ≠ 0 then sym_step 1 0 errs else (errs, [])
  | i + 2, errs =>
    if (errs.getD (i + 2) ⟨0, 0, 0⟩).sgn ≠ 0 then
      match sym_step (i + 2) (i + 1) errs with
      | (errs1, w) =>
        match sym_loop i errs1 with
        | (errs2, w2) => (errs2, w ++ w2)
    else sym_loop (i + 1) errs

/-- `rounder::detail::symmetrize_errors` (threshold 10%): scan adjacent
pairs from the end of the list, replacing close asymmetric pairs by their
symmetric average. -/
def symmetrize_errors (errs : List number) : List number × List Warning :=
  sym_loop (errs.length - 1) errs

/-- `rounder::mode_type`. -/
inductive mode_type where
  | terminal
  | tex
  | typst
  | gnuplot
deriving DecidableEq, Repr

/-- `rounder::format_options::round_algo`. -/
inductive round_algo where
  | pdg
  | twodigits
deriving DecidableEq, Repr

/-- `rounder::format_options`.  The null-or-empty label pointer of the C++
structure is a plain list (the renderer only checks non-emptiness). -/
structure format_options where
  mode : mode_type
  algo : round_algo
  labels : List (List Char)
  symmetrize_errors : Bool
  prec_to_total_err : Bool
  prec_to_larger_err : Bool
  factorize_powers : Bool
  no_utf8 : Bool
  cdot : Bool
deriving DecidableEq, Repr

/-- The default-constructed `format_options`: terminal mode, PDG algorithm,
no labels, no symmetrization, precision to the larger error. -/
def default_options : format_options :=
  ⟨.terminal, .pdg, [], false, false, true, false, false, false⟩

/-- `std::to_chars` digit loop on a positive integer: most-significant
digit first; the first argument is the fuel. -/
def nat_digits_fuel : Nat → Nat → List Nat
  | 0, _ => []
  | _ + 1, 0 => []
  | fuel + 1, v + 1 => nat_digits_fuel fuel ((v + 1) / 10) ++ [(v + 1) % 10]

/-- Decimal digit value to character. -/
def digit_char (d : Nat) : Char := Char.ofNat (48 + d)

/-- Decimal representation of a `std::uint64_t`, as `std::to_chars`
produces it. -/
def nat_to_chars (v : Nat) : List Char :=
  if v = 0 then ['0'] else (nat_digits_fuel v v).map digit_char

/-- `std::to_string` on an `int` (used for the factorized exponent). -/
def int_to_chars (v : Int) : List Char :=
  if v < 0 then '-' :: nat_to_chars (-v).toNat else nat_to_chars v.toNat

/-- `rounder::number::to_string`: the canonical decimal string of a
`number`; in factorized mode only the mantissa digits are emitted. -/
def number.to_string : number → Bool → List Char
  | ⟨n, p, sgn⟩, factorize_powers =>
    let mant := nat_to_chars n
    let len := mant.length
    let sign : List Char := if sgn < 0 then ['-'] else []
    if p ≥ 0 ∨ factorize_powers = true then
      sign ++ mant ++ (if factorize_powers = false then List.replicate p.toNat '0' else [])
    else
      let shift := (-p).toNat
      if shift ≥ len then
        sign ++ ['0', '.'] ++ List.replicate (shift - len) '0' ++ mant
      else
        sign ++ mant.take (len - shift) ++ ['.'] ++ mant.drop (len - shift)

/-- `rounder::formatter::symbol_table`: mult, mult alternate, plus/minus,
parenthesis open/close, curly open/close, curly pre-space, text
open/close (the text wrappers are named `txo`/`txc` here). -/
structure symbol_table where
  x : List Char
  xa : List Char
  pm : List Char
  po : List Char
  pc : List Char
  co : List Char
  cc : List Char
  cs : List Char
  txo : List Char
  txc : List Char
deriving DecidableEq, Repr

/-- `rounder::formatter::table_`, indexed by mode. -/
def mode_table : mode_type → symbol_table
  | .terminal =>
    ⟨"×".data, "·".data, "±".data, "(".data, ")".data, [], [], [], [], []⟩
  | .tex =>
    ⟨" \\times ".data, "\\cdot".data, "\\pm".data, "\\left( ".data,
      " \\right)".data, "\x7b".data, "\x7d".data, "\\,".data,
      "\\text\x7b".data, "\x7d".data⟩
  | .typst =>
    ⟨" times ".data, " dot.op ".data, " plus.minus ".data, "(".data,
      ")".data, "(".data, ")".data, "#h(0.0em)".data, "\"".data, "\"".data⟩
  | .gnuplot =>
    ⟨"×".data, "· ".data, "±".data, "(".data, ")".data, "\x7b".data,
      "\x7d".data, [], [], []⟩

/-- `rounder::formatter::symbols`: the mode's table, with the ASCII
substitutions for the multiplication and plus/minus glyphs when `no_utf8`
is set. -/
def symbols (opt : format_options) : symbol_table :=
  let base := mode_table opt.mode
  if opt.no_utf8 = false then base
  else ⟨"x".data, ".".data, "+/-".data, base.po, base.pc, base.co, base.cc,
    base.cs, base.txo, base.txc⟩

/-- The per-uncertainty loop of `rounder::formatter::format`.  The counter
is `cnt_label`; the boolean records whether the label subscript
`cnt_label/2 - 1` ever fell outside the label list (undefined behavior of
`std::vector::operator[]` in the C++ source). -/
def format_err_loop (opt : format_options) : List number → Nat → List Char × Bool
  | [], _ => ([], false)
  | e :: rest, cnt =>
    let s := symbols opt
    let math : Bool :=
      if opt.mode = mode_type.gnuplot ∨ opt.mode = mode_type.tex ∨
          opt.mode = mode_type.typst then true else false
    let pre : List Char :=
      if e.sgn ≠ 0 ∧ math = true then
        (if cnt % 2 = 0 then s.cs else []) ++
          [if e.sgn = 1 then '^' else '_'] ++ s.co
      else []
    let midcnt : List Char × Nat :=
      if e.sgn = 0 then (s.pm ++ [' '], cnt + 1)
      else if e.sgn = 1 then (['+'], cnt)
      else ([], cnt)
    let post : List Char := if e.sgn ≠ 0 ∧ math = true then s.cc else []
    let cnt2 := midcnt.2 + 1
    let lab : List Char × Bool :=
      if opt.labels ≠ [] ∧ cnt2 % 2 = 0 then
        if h : cnt2 / 2 - 1 < opt.labels.length then
          ([' '] ++ s.txo ++ opt.labels.get ⟨cnt2 / 2 - 1, h⟩ ++ s.txc, false)
        else ([' '] ++ s.txo ++ s.txc, true)
      else ([], false)
    match format_err_loop opt rest cnt2 with
    | (out, oob) =>
      ([' '] ++ pre ++ midcnt.1 ++ e.to_string opt.factorize_powers ++ post ++
          lab.1 ++ out,
        lab.2 || oob)

/-- `rounder::formatter::format`: render the central value and its
uncertainties; the boolean component flags an out-of-bounds label access
(see `format_err_loop`). -/
def formatter_format (opt : format_options) (central : number)
    (errors : List number) : List Char × Bool :=
  let s := symbols opt
  let lead : List Char :=
    if opt.factorize_powers = true ∧ central.p ≠ 0 then s.po else []
  let body := format_err_loop opt errors 0
  let trail : List Char :=
    if opt.factorize_powers = true ∧ central.p ≠ 0 then
      s.pc ++ (if opt.cdot = true then s.xa else s.x) ++ "10".data ++
        (if central.p ≠ 1 then ['^'] ++ s.co ++ int_to_chars central.p ++ s.cc
         else [])
    else []
  (lead ++ central.to_string opt.factorize_powers ++ body.1 ++ trail, body.2)

/-- `INT_MAX` sentinel of `rounder::detail::round`. -/
def INT_MAX : Int := 2147483647

/-- `INT_MIN` sentinel of `rounder::detail::round`. -/
def INT_MIN : Int := -2147483648

/-- The algorithm dispatch `opt.algo == round_algo::pdg ? pdg_round :
twodig_round` appearing at each rounding site of `rounder::detail::round`. -/
def algo_round (opt : format_options) (quiet : Bool) (v : number) :
    Except (List Char) (number × List Warning) :=
  if opt.algo = round_algo.pdg then pdg_round v quiet
  else Except.ok (twodig_round v quiet)

/-- The `quiet` flag of `rounder::detail::round`:
`!(mode == terminal && factorize_powers)`. -/
def round_quiet (opt : format_options) : Bool :=
  !(decide (opt.mode = mode_type.terminal) && opt.factorize_powers)

/-- Concatenate the per-element results of an `algo_round` pass over the
error list, keeping the rounded values and collecting the warnings. -/
def map_algo_round (opt : format_options) (quiet : Bool) :
    List number → Except (List Char) (List number × List Warning)
  | [] => Except.ok ([], [])
  | e :: rest =>
    match algo_round opt quiet e with
    | Except.error msg => Except.error msg
    | Except.ok rw =>
      match map_algo_round opt quiet rest with
      | Except.error msg => Except.error msg
      | Except.ok rest1 => Except.ok (rw.1 :: rest1.1, rw.2 ++ rest1.2)

/-- `round_to_prec` over the error list. -/
def map_round_to_prec (prec : Int) :
    List number → Except (List Char) (List number)
  | [] => Except.ok []
  | e :: rest =>
    match round_to_prec e prec with
    | Except.error msg => Except.error msg
    | Except.ok r =>
      match map_round_to_prec prec rest with
      | Except.error msg => Except.error msg
      | Except.ok rs => Except.ok (r :: rs)

/-- `rounder::detail::round`: the precision reconciliation.  Returns the
rounded central value, the rounded error list and the collected non-fatal
warnings, or the fatal error message. -/
def detail_round (central : number) (errors : List number)
    (opt : format_options) :
    Except (List Char) (number × List number × List Warning) :=
  let sym := if opt.symmetrize_errors = true then symmetrize_errors errors
             else (errors, [])
  let errors1 := sym.1
  let quiet := round_quiet opt
  let tot : Except (List Char) (Int × List Warning) :=
    if opt.prec_to_total_err = true then
      match algo_round opt quiet (quadrature_sum errors1).1 with
      | Except.error msg => Except.error msg
      | Except.ok tw => Except.ok (tw.1.p, (quadrature_sum errors1).2 ++ tw.2)
    else Except.ok (INT_MAX, [])
  match tot with
  | Except.error msg => Except.error msg
  | Except.ok pw =>
    let lrg : Except (List Char) (Int × List number × List Warning) :=
      if opt.prec_to_larger_err = true then
        match map_algo_round opt quiet errors1 with
        | Except.error msg => Except.error msg
        | Except.ok rw =>
          Except.ok (rw.1.foldl (fun a e => max a e.p) INT_MIN, rw.1, rw.2)
      else Except.ok (pw.1, errors1, [])
    match lrg with
    | Except.error msg => Except.error msg
    | Except.ok pew =>
      if pew.1 ≠ INT_MAX then
        match round_to_prec central pew.1 with
        | Except.error msg => Except.error msg
        | Except.ok c =>
          match map_round_to_prec pew.1 pew.2.1 with
          | Except.error msg => Except.error msg
          | Except.ok es => Except.ok (c, es, sym.2 ++ pw.2 ++ pew.2.2)
      else
        match algo_round opt quiet central with
        | Except.error msg => Except.error msg
        | Except.ok cw =>
          match map_algo_round opt quiet pew.2.1 with
          | Except.error msg => Except.error msg
          | Except.ok ew =>
            Except.ok (cw.1, ew.1, sym.2 ++ pw.2 ++ pew.2.2 ++ cw.2 ++ ew.2)

/-- `rounder::format_numbers`: reconcile precisions, then render. -/
def format_numbers (value : number) (errors : List number)
    (opt : format_options) :
    Except (List Char) (List Char × Bool × List Warning) :=
  match detail_round value errors opt with
  | Except.error msg => Except.error msg
  | Except.ok vew =>
    Except.ok ((formatter_format opt vew.1 vew.2.1).1,
      (formatter_format opt vew.1 vew.2.1).2, vew.2.2)

/-- `UINT64_MAX = std::numeric_limits<std::uint64_t>::max()`. -/
def UINT64_MAX : Nat := 18446744073709551615

/-- `std::isdigit` on the characters reachable here. -/
def isdigit (c : Char) : Bool := '0' ≤ c && c ≤ '9'

/-- Leading/trailing whitespace trimming of `from_string`. -/
def trim_chars (s : List Char) : List Char :=
  ((s.dropWhile Char.isWhitespace).reverse.dropWhile Char.isWhitespace).reverse

/-- Character-scanning loop of `from_string`: validates characters,
locates the (unique) decimal point and counts digit characters.  The
`Nat` arguments are the current index and the digit count so far. -/
def scan_chars : List Char → Option Nat → Nat → Nat →
    Except (List Char) (Option Nat × Nat)
  | [], dot, _, digits => Except.ok (dot, digits)
  | c :: rest, dot, i, digits =>
    if c = '.' then
      match dot with
      | some _ => Except.error ("multiple decimal points").data
      | none => scan_chars rest (some i) (i + 1) digits
    else if isdigit c then scan_chars rest dot (i + 1) (digits + 1)
    else Except.error ("invalid character").data

/-- Mantissa-accumulation loop of `from_string`, with the explicit
64-bit-overflow guard of the C++ source. -/
def mant_chars : List Char → Nat → Except (List Char) Nat
  | [], m => Except.ok m
  | c :: rest, m =>
    if c = '.' then mant_chars rest m
    else
      let d := c.toNat - 48
      if m > (UINT64_MAX - d) / 10 then Except.error ("mantissa overflow").data
      else mant_chars rest (m * 10 + d)

/-- `rounder::number::from_string`: parse a decimal token into a `number`;
fatal error on an empty token, a token without digits, an invalid
character, a second decimal point, or 64-bit mantissa overflow. -/
def number.from_string (s : List Char) : Except (List Char) number :=
  let sv := trim_chars s
  if sv = [] then Except.error ("empty number").data
  else
    let sgn : Int :=
      if sv.head? = some '+' then 1
      else if sv.head? = some '-' then -1
      else 0
    let sv1 := if sgn = 0 then sv else sv.tail
    match scan_chars sv1 none 0 0 with
    | Except.error msg => Except.error msg
    | Except.ok (dot, digits) =>
      if digits = 0 then Except.error ("no digits").data
      else
        match mant_chars sv1 0 with
        | Except.error msg => Except.error msg
        | Except.ok mant =>
          let p : Int :=
            match dot with
            | none => 0
            | some di => -(((sv1.length - di - 1 : Nat)) : Int)
          Except.ok ⟨mant, p, sgn⟩

/-- `pat` is a prefix of the second list. -/
def begins_with : List Char → List Char → Bool
  | [], _ => true
  | _ :: _, [] => false
  | a :: as, b :: bs => a = b && begins_with as bs

/-- `pat` occurs as a contiguous substring of the second list. -/
def contains_sub (pat : List Char) : List Char → Bool
  | [] => begins_with pat []
  | c :: rest => begins_with pat (c :: rest) || contains_sub pat rest

/-- Claim C3: central `"27.432"`, uncertainties `["2.134", "0.125"]`,
two-digit algorithm, precision-to-larger-error, terminal mode render to
exactly `"27.4 ± 2.1 ± 0.1"` (with no label overflow and no warning). -/
theorem C3_example1 :
    number.from_string "27.432".data = Except.ok ⟨27432, -3, 0⟩ ∧
    number.from_string "2.134".data = Except.ok ⟨2134, -3, 0⟩ ∧
    number.from_string "0.125".data = Except.ok ⟨125, -3, 0⟩ ∧
    format_numbers ⟨27432, -3, 0⟩ [⟨2134, -3, 0⟩, ⟨125, -3, 0⟩]
      ⟨.terminal, .twodigits, [], false, false, true, false, false, false⟩ =
      Except.ok ("27.4 ± 2.1 ± 0.1".data, false, []) := by decide

/-- Claim C4, counterexample: with central `"27.462"`, uncertainties
`["+0.3134", "-0.292", "0.0124"]`, the two-digit algorithm,
precision-to-total-error, tex mode and labels
`["(stat)", "(syst)", "(theo)"]`, the renderer pairs the label list with
uncertainty *groups* (the asymmetric pair consumes `"(stat)"`, the final
symmetric uncertainty consumes `"(syst)"`), so the output does not contain
`\pm 0.01 \text{(theo)}` as the claim states. -/
theorem C4_counterexample :
    number.from_string "27.462".data = Except.ok ⟨27462, -3, 0⟩ ∧
    number.from_string "+0.3134".data = Except.ok ⟨3134, -4, 1⟩ ∧
    number.from_string "-0.292".data = Except.ok ⟨292, -3, -1⟩ ∧
    number.from_string "0.0124".data = Except.ok ⟨124, -4, 0⟩ ∧
    format_numbers ⟨27462, -3, 0⟩ [⟨3134, -4, 1⟩, ⟨292, -3, -1⟩, ⟨124, -4, 0⟩]
      ⟨.tex, .twodigits, ["(stat)".data, "(syst)".data, "(theo)".data],
        false, true, false, false, false, false⟩ =
      Except.ok
        (("27.46 \\,^\x7b+0.31\x7d _\x7b-0.29\x7d \\text\x7b(stat)\x7d \\pm 0.01 \\text\x7b(syst)\x7d").data,
          false, []) ∧
    contains_sub ("\\pm 0.01 \\text\x7b(theo)\x7d").data
      (("27.46 \\,^\x7b+0.31\x7d _\x7b-0.29\x7d \\text\x7b(stat)\x7d \\pm 0.01 \\text\x7b(syst)\x7d").data) =
      false := by decide

/-- Claim C4, amended: the same configuration produces a string containing
`^{+0.31}`, `_{-0.29}` and `\pm 0.01 \text{(syst)}` — the third label
`"(theo)"` is never consulted because the asymmetric pair shares one
label. -/
theorem C4_amended_labels :
    format_numbers ⟨27462, -3, 0⟩ [⟨3134, -4, 1⟩, ⟨292, -3, -1⟩, ⟨124, -4, 0⟩]
      ⟨.tex, .twodigits, ["(stat)".data, "(syst)".data, "(theo)".data],
        false, true, false, false, false, false⟩ =
      Except.ok
        (("27.46 \\,^\x7b+0.31\x7d _\x7b-0.29\x7d \\text\x7b(stat)\x7d \\pm 0.01 \\text\x7b(syst)\x7d").data,
          false, []) ∧
    contains_sub ("^\x7b+0.31\x7d").data
      (("27.46 \\,^\x7b+0.31\x7d _\x7b-0.29\x7d \\text\x7b(stat)\x7d \\pm 0.01 \\text\x7b(syst)\x7d").data) =
      true ∧
    contains_sub ("_\x7b-0.29\x7d").data
      (("27.46 \\,^\x7b+0.31\x7d _\x7b-0.29\x7d \\text\x7b(stat)\x7d \\pm 0.01 \\text\x7b(syst)\x7d").data) =
      true ∧
    contains_sub ("\\pm 0.01 \\text\x7b(syst)\x7d").data
      (("27.46 \\,^\x7b+0.31\x7d _\x7b-0.29\x7d \\text\x7b(stat)\x7d \\pm 0.01 \\text\x7b(syst)\x7d").data) =
      true := by decide

/-- Claim C5, counterexample: `twodig_round` on the (validly padded)
three-digit mantissa `995` rounds up to mantissa `100`, which has three
significant digits, not two. -/
theorem C5_counterexample :
    (twodig_round ⟨995, 0, 0⟩ true).1.n = 100 ∧
    digit_count (twodig_round ⟨995, 0, 0⟩ true).1.n = 3 := by decide

/-- Claim C2, counterexample: with both precision-to-total-error and
precision-to-larger-error requested, the larger-error rule overrides the
quadrature-based exponent (the code uses `if`, not `else if`): for
uncertainties `8` and `8`, the rounded quadrature sum `√128 ≈ 11×10⁰` has
exponent `0`, but the adopted shared exponent is `-1` (each error rounds
to `80×10⁻¹`), so the results keep exponent `-1`. -/
theorem C2_counterexample :
    (twodig_round (quadrature_sum [⟨8, 0, 0⟩, ⟨8, 0, 0⟩]).1
        (round_quiet ⟨.terminal, .twodigits, [], false, true, true, false,
          false, false⟩)).1.p = 0 ∧
    detail_round ⟨200, -1, 0⟩ [⟨8, 0, 0⟩, ⟨8, 0, 0⟩]
      ⟨.terminal, .twodigits, [], false, true, true, false, false, false⟩ =
      Except.ok (⟨200, -1, 0⟩, [⟨80, -1, 0⟩, ⟨80, -1, 0⟩], []) := by decide

/-- Claim C7, counterexample: the `quiet` flag is
`!(terminal && factorize_powers)`, the opposite of the claim: in terminal
mode with factorized powers the padding diagnostic IS emitted, while in
any other combination (here: tex mode with factorized powers) it is
suppressed. -/
theorem C7_counterexample :
    detail_round ⟨105, -1, 0⟩ [⟨1, 0, 0⟩]
      ⟨.terminal, .pdg, [], false, false, true, true, false, false⟩ =
      Except.ok (⟨105, -1, 0⟩, [⟨10, -1, 0⟩], [Warning.padding]) ∧
    detail_round ⟨105, -1, 0⟩ [⟨1, 0, 0⟩]
      ⟨.tex, .pdg, [], false, false, true, true, false, false⟩ =
      Except.ok (⟨105, -1, 0⟩, [⟨10, -1, 0⟩], []) := by decide

/-- Claim C8, counterexample: the zero-mantissa value `0×10¹` serializes
to `"00"`, which parses back to `0×10⁰` and re-serializes to `"0"`. -/
theorem C8_counterexample :
    number.to_string ⟨0, 1, 0⟩ false = "00".data ∧
    number.from_string "00".data = Except.ok ⟨0, 0, 0⟩ ∧
    number.to_string ⟨0, 0, 0⟩ false ≠ "00".data := by decide

/-- Claim C9, counterexample: an asymmetric entry whose neighbor is
symmetric produces the pairing warning, but the pair is *not* left
unchanged: with magnitudes within the 10% threshold the neighbor is
replaced by the average and the asymmetric entry is removed. -/
theorem C9_counterexample :
    symmetrize_errors [⟨1, 0, 0⟩, ⟨1, 0, 1⟩] =
      ([⟨1, 0, 0⟩], [Warning.unpairedSym]) ∧
    (symmetrize_errors [⟨1, 0, 0⟩, ⟨1, 0, 1⟩]).1 ≠ [⟨1, 0, 0⟩, ⟨1, 0, 1⟩] := by
  decide

/-- Claim C10: the renderer reads the label at index `cnt_label/2 - 1`
without a bounds check (`std::vector::operator[]`); with two symmetric
uncertainties and a single label the second lookup is out of bounds, so
the guarded lookup's out-of-bounds branch of the total embedding is
reached (flag `true`). -/
theorem C10_label_out_of_bounds :
    format_numbers ⟨27432, -3, 0⟩ [⟨2134, -3, 0⟩, ⟨125, -3, 0⟩]
      ⟨.terminal, .twodigits, ["(stat)".data], false, false, true, false,
        false, false⟩ =
      Except.ok ("27.4 ± 2.1 (stat) ± 0.1 ".data, true, []) := by decide

theorem round_loop_eval : ∀ (k n d : Nat),
    round_loop k n d =
      (n / 10 ^ k, if k = 0 then d else n / 10 ^ (k - 1) % 10) := by
  intro k
  induction k with
  | zero => intro n d; simp [round_loop]
  | succ k ih =>
    intro n d
    rw [round_loop, ih]
    rcases Nat.eq_zero_or_pos k with hk | hk
    · subst hk; simp
    · have hk0 : k ≠ 0 := Nat.pos_iff_ne_zero.mp hk
      have hpow1 : 10 * 10 ^ k = 10 ^ (k + 1) := (pow_succ' 10 k).symm
      have hpow2 : 10 * 10 ^ (k - 1) = 10 ^ k := by
        rw [mul_comm, ← pow_succ]
        congr 1
        omega
      have h1 : n / 10 / 10 ^ k = n / 10 ^ (k + 1) := by
        rw [Nat.div_div_eq_div_mul, hpow1]
      have h2 : n / 10 / 10 ^ (k - 1) = n / 10 ^ k := by
        rw [Nat.div_div_eq_div_mul, hpow2]
      simp [hk0, h1, h2]

/-- The mantissa transformation described by the spec for
`round_to_exponent`: shift right by `k` decimal places, rounding half-up
on the last discarded digit only (identity for `k = 0`). -/
def spec_shift_round (n k : Nat) : Nat :=
  if k = 0 then n
  else if n / 10 ^ (k - 1) % 10 ≥ 5 then n / 10 ^ k + 1 else n / 10 ^ k

/-- Claim C6: `round_to_prec v prec` is a fatal error exactly when
`v.p > prec`; otherwise it yields exponent `prec` and the mantissa shifted
right by `(prec - v.p)` decimal places with round-half-up applied to the
last discarded digit only, and it returns `v` unchanged when
`v.p = prec`. -/
theorem C6_round_to_exponent (v : number) (prec : Int) :
    ((∃ e, round_to_prec v prec = Except.error e) ↔ prec < v.p) ∧
    (v.p ≤ prec →
      round_to_prec v prec =
        Except.ok ⟨spec_shift_round v.n (prec - v.p).toNat, prec, v.sgn⟩) ∧
    (v.p = prec → round_to_prec v prec = Except.ok v) := by
  obtain ⟨n, p, sgn⟩ := v
  dsimp only
  refine ⟨⟨?_, ?_⟩, ?_, ?_⟩
  · intro he
    by_contra hnp
    obtain ⟨e, he⟩ := he
    simp only [round_to_prec, round_loop_eval] at he
    rw [if_neg (by omega)] at he
    simp at he
  · intro hlt
    refine ⟨("cannot round to precision").data, ?_⟩
    simp only [round_to_prec]
    rw [if_pos (by omega)]
  · intro hle
    simp only [round_to_prec, round_loop_eval]
    rw [if_neg (by omega)]
    by_cases hk : (prec - p).toNat = 0
    · simp [hk, spec_shift_round]
    · simp [hk, spec_shift_round]
  · intro heq
    subst heq
    simp [round_to_prec, round_loop_eval]

/-- Witness for C6 at `v = 27432×10⁻³`, `prec = -1`. -/
theorem C6_witness :
    round_to_prec ⟨27432, -3, 0⟩ (-1) = Except.ok ⟨274, -1, 0⟩ := by
  have h := (C6_round_to_exponent ⟨27432, -3, 0⟩ (-1)).2.1 (by decide)
  simpa [spec_shift_round] using h

set_option maxRecDepth 100000 in
theorem digit_count_three : ∀ m : Nat, m < 1000 → 100 ≤ m →
    digit_count m = 3 := by decide

theorem keep_three_sig_id (m : Nat) (p s : Int) (quiet : Bool)
    (h : digit_count m = 3) :
    keep_three_sig ⟨m, p, s⟩ quiet = (⟨m, p, s⟩, []) := by
  simp [keep_three_sig, h, drop_digits]

theorem twodig_round_three (m : Nat) (p s : Int) (quiet : Bool)
    (h : digit_count m = 3) :
    twodig_round ⟨m, p, s⟩ quiet =
      (⟨if m % 10 ≥ 5 then m / 10 + 1 else m / 10, p + 1, s⟩, []) := by
  simp [twodig_round, keep_three_sig_id m p s quiet h]

set_option maxRecDepth 100000 in
theorem twodig_mantissa_facts : ∀ m : Nat, m < 1000 → 100 ≤ m →
    ((m ≤ 994 → digit_count (if m % 10 ≥ 5 then m / 10 + 1 else m / 10) = 2) ∧
     (995 ≤ m → (if m % 10 ≥ 5 then m / 10 + 1 else m / 10) = 100)) := by
  decide

/-- Claim C5, amended: for a mantissa already padded to exactly three
significant digits (100..999), `twodig_round` never raises a fatal error
(it is total) and emits no warning; it leaves exactly two significant
digits for mantissas `100..994`, while mantissas `995..999` round up to
`100`, which has three significant digits. -/
theorem C5_amended (m : Nat) (p s : Int) (quiet : Bool)
    (h1 : 100 ≤ m) (h2 : m ≤ 999) :
    (m ≤ 994 → digit_count (twodig_round ⟨m, p, s⟩ quiet).1.n = 2) ∧
    (995 ≤ m → (twodig_round ⟨m, p, s⟩ quiet).1.n = 100) ∧
    (twodig_round ⟨m, p, s⟩ quiet).1.p = p + 1 ∧
    (twodig_round ⟨m, p, s⟩ quiet).2 = [] := by
  have hlt : m < 1000 := by omega
  have hdc := digit_count_three m hlt h1
  rw [twodig_round_three m p s quiet hdc]
  have hfacts := twodig_mantissa_facts m hlt h1
  exact ⟨hfacts.1, fun h995 => hfacts.2 h995, rfl, rfl⟩

/-- Witness for C5 at mantissa `123`. -/
theorem C5_witness :
    digit_count (twodig_round ⟨123, 0, 0⟩ true).1.n = 2 :=
  (C5_amended 123 0 0 true (by decide) (by decide)).1 (by decide)

theorem round_to_prec_exp (v : number) (prec : Int) (r : number)
    (h : round_to_prec v prec = Except.ok r) : r.p = prec := by
  obtain ⟨n, p, sgn⟩ := v
  simp only [round_to_prec, round_loop_eval] at h
  by_cases hgt : p > prec
  · rw [if_pos hgt] at h; cases h
  · rw [if_neg hgt] at h
    cases h
    rfl

theorem map_round_to_prec_exp (prec : Int) :
    ∀ (l rs : List number), map_round_to_prec prec l = Except.ok rs →
      ∀ e ∈ rs, e.p = prec := by
  intro l
  induction l with
  | nil =>
    intro rs h e he
    simp only [map_round_to_prec] at h
    cases h
    cases he
  | cons a t ih =>
    intro rs h e he
    simp only [map_round_to_prec] at h
    split at h
    next msg heq => cases h
    next r heq =>
      split at h
      next msg2 heq2 => cases h
      next rs1 heq2 =>
        cases h
        cases he with
        | head => exact round_to_prec_exp a prec e heq
        | tail _ hmem => exact ih rs1 heq2 e hmem

/-- Claim C2, amended: the exponent of the rounded quadrature sum is
adopted as the shared target exponent only when precision-to-larger-error
is *not* also requested (the source uses two independent `if`s, so the
larger-error rule overrides the total-error rule whenever both are set):
under `prec_to_total_err ∧ ¬prec_to_larger_err`, every value produced by
`detail_round` carries the exponent of the rounded quadrature sum. -/
theorem C2_amended (central : number) (errors : List number)
    (opt : format_options) (c tote : number) (es : List number)
    (w wr : List Warning)
    (h1 : opt.prec_to_total_err = true) (h2 : opt.prec_to_larger_err = false)
    (htote : algo_round opt (round_quiet opt)
        (quadrature_sum (if opt.symmetrize_errors = true then
          symmetrize_errors errors else (errors, [])).1).1 =
        Except.ok (tote, wr))
    (hmax : tote.p ≠ INT_MAX)
    (hok : detail_round central errors opt = Except.ok (c, es, w)) :
    c.p = tote.p ∧ ∀ e ∈ es, e.p = tote.p := by
  unfold detail_round at hok
  simp only [h1, h2, reduceIte] at hok
  rw [htote] at hok
  dsimp only at hok
  split at hok
  next hfalse => exact absurd hfalse (by simp)
  next =>
  rename_i pew heq
  rw [if_neg (by simp : ¬(false = true))] at heq
  cases heq
  dsimp only at hok
  rw [if_pos hmax] at hok
  cases hc : round_to_prec central tote.p with
  | error msg => rw [hc] at hok; cases hok
  | ok c1 =>
    rw [hc] at hok
    cases hm : map_round_to_prec tote.p
        (if opt.symmetrize_errors = true then symmetrize_errors errors
         else (errors, [])).1 with
    | error msg => rw [hm] at hok; cases hok
    | ok es1 =>
      rw [hm] at hok
      cases hok
      exact ⟨round_to_prec_exp central tote.p c hc,
        map_round_to_prec_exp tote.p _ es hm⟩

/-- Witness for C2 (amended) at central `200×10⁻¹`, errors `[8, 8]`,
PDG algorithm, precision-to-total-error only. -/
theorem C2_witness :
    (⟨20, 0, 0⟩ : number).p = (⟨11, 0, 0⟩ : number).p ∧
    ∀ e ∈ [(⟨8, 0, 0⟩ : number), ⟨8, 0, 0⟩], e.p = (⟨11, 0, 0⟩ : number).p :=
  C2_amended ⟨200, -1, 0⟩ [⟨8, 0, 0⟩, ⟨8, 0, 0⟩]
    ⟨.terminal, .pdg, [], false, true, false, false, false, false⟩
    ⟨20, 0, 0⟩ ⟨11, 0, 0⟩ [⟨8, 0, 0⟩, ⟨8, 0, 0⟩] [] []
    rfl rfl (by decide) (by decide) (by decide)

/-- Claim C9, amended: when the `symmetrize_errors` loop body meets an
asymmetric entry at position `j+1` whose neighbor at position `j` is
symmetric, it emits the pairing-consistency warning; both entries are left
unchanged only when the magnitudes differ by at least the threshold —
otherwise the neighbor is replaced by the average and the entry removed
(the list shrinks by one). -/
theorem C9_amended (errs : List number) (j : Nat) (hj : j + 1 < errs.length)
    (h2 : (errs.getD j ⟨0, 0, 0⟩).sgn = 0) :
    (sym_step (j + 1) j errs).2 = [Warning.unpairedSym] ∧
    ((((to_double (errs.getD (j + 1) ⟨0, 0, 0⟩)).abs.div
          (to_double (errs.getD j ⟨0, 0, 0⟩)).abs).sub ⟨1, 1⟩).abs.lt ⟨1, 10⟩ =
        true →
      (sym_step (j + 1) j errs).1.length = errs.length - 1) ∧
    ((((to_double (errs.getD (j + 1) ⟨0, 0, 0⟩)).abs.div
          (to_double (errs.getD j ⟨0, 0, 0⟩)).abs).sub ⟨1, 1⟩).abs.lt ⟨1, 10⟩ =
        false →
      (sym_step (j + 1) j errs).1 = errs) := by
  unfold sym_step
  simp only [h2, reduceIte]
  by_cases hlt :
      (((to_double (errs.getD (j + 1) ⟨0, 0, 0⟩)).abs.div
        (to_double (errs.getD j ⟨0, 0, 0⟩)).abs).sub ⟨1, 1⟩).abs.lt ⟨1, 10⟩ = true
  · rw [if_pos hlt]
    dsimp only
    refine ⟨rfl, fun _ => ?_, fun hff => ?_⟩
    · have hlen : j + 1 < (errs.set j (from_rat
          (dq.mul ⟨1, 2⟩ ((to_double (errs.getD (j + 1) ⟨0, 0, 0⟩)).abs.add
            (to_double (errs.getD j ⟨0, 0, 0⟩)).abs)))).length := by
        rw [List.length_set]; exact hj
      have hl := List.length_eraseIdx_add_one hlen
      rw [List.length_set] at hl
      omega
    · rw [hlt] at hff; cases hff
  · rw [if_neg hlt]
    dsimp only
    have hff : (((to_double (errs.getD (j + 1) ⟨0, 0, 0⟩)).abs.div
        (to_double (errs.getD j ⟨0, 0, 0⟩)).abs).sub ⟨1, 1⟩).abs.lt ⟨1, 10⟩ =
        false := by
      cases hb : (((to_double (errs.getD (j + 1) ⟨0, 0, 0⟩)).abs.div
          (to_double (errs.getD j ⟨0, 0, 0⟩)).abs).sub ⟨1, 1⟩).abs.lt ⟨1, 10⟩
      · rfl
      · exact absurd hb hlt
    refine ⟨rfl, fun htt => ?_, fun _ => rfl⟩
    rw [htt] at hff
    cases hff

/-- Witness for C9 (amended) at `[1 (symmetric), +1 (upper)]`. -/
theorem C9_witness :
    (sym_step 1 0 [⟨1, 0, 0⟩, ⟨1, 0, 1⟩]).2 = [Warning.unpairedSym] ∧
    ((((to_double (([(⟨1, 0, 0⟩ : number), ⟨1, 0, 1⟩]).getD 1 ⟨0, 0, 0⟩)).abs.div
          (to_double (([(⟨1, 0, 0⟩ : number), ⟨1, 0, 1⟩]).getD 0 ⟨0, 0, 0⟩)).abs).sub
          ⟨1, 1⟩).abs.lt ⟨1, 10⟩ = true →
      (sym_step 1 0 [⟨1, 0, 0⟩, ⟨1, 0, 1⟩]).1.length =
        ([(⟨1, 0, 0⟩ : number), ⟨1, 0, 1⟩]).length - 1) ∧
    ((((to_double (([(⟨1, 0, 0⟩ : number), ⟨1, 0, 1⟩]).getD 1 ⟨0, 0, 0⟩)).abs.div
          (to_double (([(⟨1, 0, 0⟩ : number), ⟨1, 0, 1⟩]).getD 0 ⟨0, 0, 0⟩)).abs).sub
          ⟨1, 1⟩).abs.lt ⟨1, 10⟩ = false →
      (sym_step 1 0 [⟨1, 0, 0⟩, ⟨1, 0, 1⟩]).1 = [⟨1, 0, 0⟩, ⟨1, 0, 1⟩]) :=
  C9_amended [⟨1, 0, 0⟩, ⟨1, 0, 1⟩] 0 (by decide) (by decide)

theorem keep_three_sig_quiet (v : number) : (keep_three_sig v true).2 = [] := by
  obtain ⟨n, p, sgn⟩ := v
  simp only [keep_three_sig]
  split <;> simp
  split <;> simp

theorem pdg_round_no_warn (v : number) (rw : number × List Warning)
    (h : pdg_round v true = Except.ok rw) : rw.2 = [] := by
  unfold pdg_round at h
  dsimp only at h
  cases hr : pdg_rule (keep_three_sig v true).1 with
  | error m => rw [hr] at h; cases h
  | ok r =>
    rw [hr] at h
    cases h
    exact keep_three_sig_quiet v

theorem twodig_round_no_warn (v : number) : (twodig_round v true).2 = [] := by
  unfold twodig_round
  exact keep_three_sig_quiet v

theorem algo_round_no_warn (opt : format_options) (v : number)
    (rw : number × List Warning)
    (h : algo_round opt true v = Except.ok rw) : rw.2 = [] := by
  unfold algo_round at h
  split at h
  · exact pdg_round_no_warn v rw h
  · cases h; exact twodig_round_no_warn v

theorem map_algo_round_no_warn (opt : format_options) :
    ∀ (l : List number) (rw : List number × List Warning),
      map_algo_round opt true l = Except.ok rw → rw.2 = [] := by
  intro l
  induction l with
  | nil =>
    intro rw h
    simp only [map_algo_round] at h
    cases h
    rfl
  | cons a t ih =>
    intro rw h
    simp only [map_algo_round] at h
    split at h
    next msg heq => cases h
    next r heq =>
      split at h
      next msg2 heq2 => cases h
      next rest1 heq2 =>
        cases h
        dsimp only
        rw [algo_round_no_warn opt a r heq, ih rest1 heq2]
        rfl

theorem sym_step_no_padding (i1 i2 : Nat) (errs : List number) :
    Warning.padding ∉ (sym_step i1 i2 errs).2 := by
  unfold sym_step
  dsimp only
  split <;> split <;> simp

theorem sym_loop_no_padding : ∀ i errs, Warning.padding ∉ (sym_loop i errs).2 := by
  intro i
  induction i using Nat.strong_induction_on with
  | _ i ih =>
    intro errs
    match i with
    | 0 => simp [sym_loop]
    | 1 =>
      rw [sym_loop]
      split
      · exact sym_step_no_padding 1 0 errs
      · simp
    | i + 2 =>
      rw [sym_loop]
      split
      · have hstep := sym_step_no_padding (i + 2) (i + 1) errs
        have hloop := ih i (by omega) (sym_step (i + 2) (i + 1) errs).1
        show Warning.padding ∉
          (sym_step (i + 2) (i + 1) errs).2 ++
            (sym_loop i (sym_step (i + 2) (i + 1) errs).1).2
        simp only [List.mem_append]
        rintro (hmem | hmem)
        · exact hstep hmem
        · exact hloop hmem
      · exact ih (i + 1) (by omega) errs

theorem symmetrize_no_padding (errs : List number) :
    Warning.padding ∉ (symmetrize_errors errs).2 :=
  sym_loop_no_padding (errs.length - 1) errs

theorem quadrature_sum_no_padding (l : List number) :
    Warning.padding ∉ (quadrature_sum l).2 := by
  cases l with
  | nil => decide
  | cons a t =>
    cases t with
    | nil => simp [quadrature_sum]
    | cons b t2 =>
      show Warning.padding ∉
        (if ((a :: b :: t2).foldl quad_step
              (⟨0, 1⟩, ⟨0, 1⟩, 0, ⟨1, 1⟩)).2.2.1 % 2 ≠ 0 then
          [Warning.unpaired] else [])
      split <;> simp

theorem detail_round_no_padding (central : number) (errors : List number)
    (opt : format_options) (c : number) (es : List number) (w : List Warning)
    (hq : round_quiet opt = true)
    (hok : detail_round central errors opt = Except.ok (c, es, w)) :
    Warning.padding ∉ w := by
  have hsym : Warning.padding ∉
      (if opt.symmetrize_errors = true then symmetrize_errors errors
       else (errors, [])).2 := by
    split
    · exact symmetrize_no_padding errors
    · simp
  have hqs := quadrature_sum_no_padding
    (if opt.symmetrize_errors = true then symmetrize_errors errors
     else (errors, [])).1
  unfold detail_round at hok
  rw [hq] at hok
  dsimp only at hok
  split at hok
  next msg hx => cases hok
  next pw hx =>
    have hpw : Warning.padding ∉ pw.2 := by
      split at hx
      · split at hx
        next msg halg => cases hx
        next tw halg =>
          cases hx
          dsimp only
          simp only [List.mem_append]
          rintro (hmem | hmem)
          · exact hqs hmem
          · rw [algo_round_no_warn opt _ tw halg] at hmem; cases hmem
      · cases hx; simp
    split at hok
    next msg hy => cases hok
    next pew hy =>
      have hpew : Warning.padding ∉ pew.2.2 := by
        split at hy
        · split at hy
          next msg hmap => cases hy
          next rw2 hmap =>
            cases hy
            dsimp only
            rw [map_algo_round_no_warn opt _ rw2 hmap]
            simp
        · cases hy; simp
      split at hok
      · split at hok
        next msg hc1 => cases hok
        next c1 hc1 =>
          split at hok
          next msg hes1 => cases hok
          next es1 hes1 =>
            cases hok
            simp only [List.mem_append]
            rintro ((hmem | hmem) | hmem)
            · exact hsym hmem
            · exact hpw hmem
            · exact hpew hmem
      · split at hok
        next msg hcw => cases hok
        next cw hcw =>
          split at hok
          next msg hew => cases hok
          next ew hew =>
            cases hok
            simp only [List.mem_append]
            rintro ((((hmem | hmem) | hmem) | hmem) | hmem)
            · exact hsym hmem
            · exact hpw hmem
            · exact hpew hmem
            · rw [algo_round_no_warn opt _ cw hcw] at hmem; cases hmem
            · rw [map_algo_round_no_warn opt _ ew hew] at hmem; cases hmem

theorem round_quiet_true (opt : format_options)
    (h : ¬(opt.mode = mode_type.terminal ∧ opt.factorize_powers = true)) :
    round_quiet opt = true := by
  unfold round_quiet
  by_cases hm : opt.mode = mode_type.terminal
  · have hf : opt.factorize_powers = false := by
      cases hfp : opt.factorize_powers
      · rfl
      · exact absurd ⟨hm, hfp⟩ h
    simp [hm, hf]
  · simp [hm]

/-- Claim C7, amended: the padding-with-zeros diagnostics produced during
precision reconciliation are suppressed exactly when the mode/option
combination is NOT (terminal mode with factorized powers) — the converse
of the claim; in the terminal+factorized combination they are emitted
(see `C7_counterexample`).  The pairing warnings of `symmetrize_errors`
and `quadrature_sum` are never suppressed. -/
theorem C7_amended (central : number) (errors : List number)
    (opt : format_options) (c : number) (es : List number) (w : List Warning)
    (hnq : ¬(opt.mode = mode_type.terminal ∧ opt.factorize_powers = true))
    (hok : detail_round central errors opt = Except.ok (c, es, w)) :
    Warning.padding ∉ w :=
  detail_round_no_padding central errors opt c es w (round_quiet_true opt hnq)
    hok

/-- Witness for C7 (amended): tex mode with factorized powers, a one-digit
uncertainty that needs padding — no padding warning is emitted. -/
theorem C7_witness :
    detail_round ⟨105, -1, 0⟩ [⟨1, 0, 0⟩]
      ⟨.tex, .pdg, [], false, false, true, true, false, false⟩ =
      Except.ok (⟨105, -1, 0⟩, [⟨10, -1, 0⟩], []) ∧
    Warning.padding ∉ ([] : List Warning) :=
  ⟨by decide,
    C7_amended ⟨105, -1, 0⟩ [⟨1, 0, 0⟩]
      ⟨.tex, .pdg, [], false, false, true, true, false, false⟩
      ⟨105, -1, 0⟩ [⟨10, -1, 0⟩] [] (by decide) (by decide)⟩

theorem nat_digits_fuel_eq : ∀ (f v : Nat), v ≤ f →
    nat_digits_fuel f v = (Nat.digits 10 v).reverse := by
  intro f
  induction f with
  | zero =>
    intro v hv
    interval_cases v
    simp [nat_digits_fuel]
  | succ f ih =>
    intro v hv
    cases v with
    | zero => simp [nat_digits_fuel]
    | succ v =>
      rw [nat_digits_fuel]
      have hlt : (v + 1) / 10 ≤ f := by
        have := Nat.div_lt_self (Nat.succ_pos v) (by norm_num : 1 < 10)
        omega
      rw [ih _ hlt]
      rw [Nat.digits_def' (by norm_num : 1 < 10) (Nat.succ_pos v)]
      simp

theorem nat_to_chars_eq (n : Nat) (hn : n ≠ 0) :
    nat_to_chars n = ((Nat.digits 10 n).reverse).map digit_char := by
  unfold nat_to_chars
  rw [if_neg hn, nat_digits_fuel_eq n n le_rfl]

theorem digit_char_facts : ∀ d : Nat, d < 10 →
    isdigit (digit_char d) = true ∧ digit_char d ≠ '.' ∧
    digit_char d ≠ '+' ∧ digit_char d ≠ '-' ∧
    (digit_char d).isWhitespace = false ∧
    (digit_char d).toNat - 48 = d := by decide

theorem msb_val_eq : ∀ (L : List Nat) (m : Nat),
    L.foldl (fun a d => a * 10 + d) m =
      m * 10 ^ L.length + Nat.ofDigits 10 L.reverse := by
  intro L
  induction L with
  | nil => intro m; simp
  | cons d L ih =>
    intro m
    rw [List.foldl_cons, ih]
    rw [List.reverse_cons, Nat.ofDigits_append]
    simp only [List.length_cons, List.length_reverse, Nat.ofDigits_singleton]
    ring

theorem ofDigits_replicate_zero : ∀ k : Nat,
    Nat.ofDigits 10 (List.replicate k 0) = 0 := by
  intro k
  induction k with
  | zero => simp
  | succ k ih => rw [List.replicate_succ, Nat.ofDigits_cons, ih]

theorem msb_val_digits_zeros (n k : Nat) :
    ((Nat.digits 10 n).reverse ++ List.replicate k 0).foldl
      (fun a d => a * 10 + d) 0 = n * 10 ^ k := by
  rw [msb_val_eq]
  rw [List.reverse_append, List.reverse_replicate, List.reverse_reverse]
  rw [Nat.ofDigits_append, ofDigits_replicate_zero, Nat.ofDigits_digits]
  simp [List.length_replicate, mul_comm]

theorem foldl_msb_ge : ∀ (L : List Nat) (m : Nat),
    m ≤ L.foldl (fun a d => a * 10 + d) m := by
  intro L
  induction L with
  | nil => intro m; exact le_rfl
  | cons d L ih =>
    intro m
    rw [List.foldl_cons]
    calc m ≤ m * 10 + d := by nlinarith
    _ ≤ List.foldl (fun a d => a * 10 + d) (m * 10 + d) L := ih _

theorem dropWhile_ws_id (l : List Char)
    (h : ∀ c ∈ l, c.isWhitespace = false) :
    l.dropWhile Char.isWhitespace = l := by
  cases l with
  | nil => rfl
  | cons a t =>
    rw [List.dropWhile_cons, h a (List.mem_cons_self a t)]
    simp

theorem trim_chars_id (l : List Char)
    (h : ∀ c ∈ l, c.isWhitespace = false) : trim_chars l = l := by
  unfold trim_chars
  rw [dropWhile_ws_id l h,
    dropWhile_ws_id l.reverse (fun c hc => h c (List.mem_reverse.mp hc)),
    List.reverse_reverse]

theorem scan_chars_digits : ∀ (L : List Nat) (i digits : Nat),
    (∀ d ∈ L, d < 10) →
    scan_chars (L.map digit_char) none i digits =
      Except.ok (none, digits + L.length) := by
  intro L
  induction L with
  | nil => intro i digits _; simp [scan_chars]
  | cons d L ih =>
    intro i digits hlt
    have hd := digit_char_facts d (hlt d (List.mem_cons_self d L))
    rw [List.map_cons, scan_chars, if_neg hd.2.1]
    rw [if_pos hd.1, ih (i + 1) (digits + 1)
      (fun x hx => hlt x (List.mem_cons_of_mem d hx))]
    congr 1
    congr 1
    simp [List.length_cons]
    omega

theorem mant_chars_eval : ∀ (L : List Nat) (m : Nat),
    (∀ d ∈ L, d < 10) →
    L.foldl (fun a d => a * 10 + d) m ≤ UINT64_MAX →
    mant_chars (L.map digit_char) m =
      Except.ok (L.foldl (fun a d => a * 10 + d) m) := by
  intro L
  induction L with
  | nil => intro m _ _; rfl
  | cons d L ih =>
    intro m hlt hbound
    have hd := digit_char_facts d (hlt d (List.mem_cons_self d L))
    rw [List.foldl_cons] at hbound ⊢
    have hstep : m * 10 + d ≤ UINT64_MAX :=
      le_trans (foldl_msb_ge L (m * 10 + d)) hbound
    rw [List.map_cons, mant_chars, if_neg hd.2.1, hd.2.2.2.2.2]
    rw [if_neg ?hguard]
    case hguard =>
      intro hcon
      have h10 : (UINT64_MAX - d) / 10 < m := hcon
      have := (Nat.div_lt_iff_lt_mul (by norm_num : 0 < 10)).mp h10
      have hdmax : d ≤ UINT64_MAX := le_trans (le_of_lt (hlt d (List.mem_cons_self d L))) (by norm_num [UINT64_MAX])
      omega
    exact ih (m * 10 + d) (fun x hx => hlt x (List.mem_cons_of_mem d hx)) hbound

theorem from_string_digits (L : List Nat) (neg : Bool)
    (hL : ∀ d ∈ L, d < 10) (hne : L ≠ [])
    (hval : L.foldl (fun a d => a * 10 + d) 0 ≤ UINT64_MAX) :
    number.from_string ((if neg = true then ['-'] else []) ++ L.map digit_char) =
      Except.ok ⟨L.foldl (fun a d => a * 10 + d) 0, 0,
        if neg = true then -1 else 0⟩ := by
  have hwsd : ∀ c ∈ L.map digit_char, c.isWhitespace = false := by
    intro c hc
    obtain ⟨d, hd, rfl⟩ := List.mem_map.mp hc
    exact (digit_char_facts d (hL d hd)).2.2.2.2.1
  cases L with
  | nil => exact absurd rfl hne
  | cons d0 L' =>
    have hd0 := digit_char_facts d0 (hL d0 (List.mem_cons_self d0 L'))
    cases neg with
    | false =>
      simp only [Bool.false_eq_true, if_false, List.nil_append]
      unfold number.from_string
      rw [trim_chars_id _ hwsd]
      rw [List.map_cons, if_neg (by simp)]
      rw [if_neg (by simp [hd0.2.2.1]), if_neg (by simp [hd0.2.2.2.1])]
      dsimp only
      rw [if_pos rfl]
      rw [← List.map_cons, scan_chars_digits (d0 :: L') 0 0 hL]
      dsimp only
      rw [if_neg (by simp)]
      rw [mant_chars_eval (d0 :: L') 0 hL hval]
    | true =>
      simp only [reduceIte]
      unfold number.from_string
      have hws2 : ∀ c ∈ '-' :: (d0 :: L').map digit_char,
          c.isWhitespace = false := by
        intro c hc
        rcases List.mem_cons.mp hc with rfl | hc
        · decide
        · exact hwsd c hc
      rw [List.singleton_append, trim_chars_id _ hws2]
      rw [if_neg (by simp)]
      rw [if_neg (by simp), if_pos (by simp)]
      dsimp only
      rw [if_neg (by norm_num)]
      rw [List.tail_cons]
      rw [scan_chars_digits (d0 :: L') 0 0 hL]
      dsimp only
      rw [if_neg (by simp)]
      rw [mant_chars_eval (d0 :: L') 0 hL hval]

theorem to_string_nonneg (n : Nat) (p sgn : Int) (hp : 0 ≤ p) :
    number.to_string ⟨n, p, sgn⟩ false =
      (if sgn < 0 then ['-'] else []) ++ nat_to_chars n ++
        List.replicate p.toNat '0' := by
  unfold number.to_string
  dsimp only
  rw [if_pos (Or.inl hp)]
  rw [if_pos rfl]

theorem nat_to_chars_pow (n k : Nat) (hn : n ≠ 0) :
    nat_to_chars (n * 10 ^ k) = nat_to_chars n ++ List.replicate k '0' := by
  have hnk : n * 10 ^ k ≠ 0 := by positivity
  rw [nat_to_chars_eq _ hnk, nat_to_chars_eq _ hn]
  rw [mul_comm, Nat.digits_base_pow_mul (by norm_num : 1 < 10) (Nat.pos_of_ne_zero hn)]
  rw [List.reverse_append, List.reverse_replicate, List.map_append,
    List.map_replicate]
  rfl

/-- Claim C8, amended: for every `number` with `exponent ≥ 0`, a *nonzero*
mantissa, and a value that still fits in 64 bits
(`n·10^p ≤ UINT64_MAX` — larger values make the re-parse abort with the
mantissa-overflow error), parsing the serialization and re-serializing
yields the identical string.  Zero mantissas with positive exponents
serialize to `"00…0"` and re-serialize to `"0"` (see
`C8_counterexample`). -/
theorem C8_amended (v : number) (hp : 0 ≤ v.p) (hn : v.n ≠ 0)
    (hof : v.n * 10 ^ v.p.toNat ≤ UINT64_MAX) :
    ∃ w, number.from_string (v.to_string false) = Except.ok w ∧
      w.to_string false = v.to_string false := by
  obtain ⟨n, p, sgn⟩ := v
  dsimp only at hp hn hof
  have hL : ∀ d ∈ (Nat.digits 10 n).reverse ++ List.replicate p.toNat 0,
      d < 10 := by
    intro d hd
    rcases List.mem_append.mp hd with hd | hd
    · exact Nat.digits_lt_base (by norm_num) (List.mem_reverse.mp hd)
    · rw [List.eq_of_mem_replicate hd]; norm_num
  have hne : (Nat.digits 10 n).reverse ++ List.replicate p.toNat 0 ≠ [] := by
    intro hcon
    have := List.append_eq_nil.mp hcon
    have h2 := List.reverse_eq_nil_iff.mp this.1
    exact hn (Nat.digits_eq_nil_iff_eq_zero.mp h2)
  have hvv : ((Nat.digits 10 n).reverse ++ List.replicate p.toNat 0).foldl
      (fun a d => a * 10 + d) 0 = n * 10 ^ p.toNat := msb_val_digits_zeros n p.toNat
  have hval : ((Nat.digits 10 n).reverse ++ List.replicate p.toNat 0).foldl
      (fun a d => a * 10 + d) 0 ≤ UINT64_MAX := by rw [hvv]; exact hof
  have hmap : ((Nat.digits 10 n).reverse ++ List.replicate p.toNat 0).map
      digit_char = nat_to_chars n ++ List.replicate p.toNat '0' := by
    rw [List.map_append, List.map_replicate, nat_to_chars_eq n hn]
    rfl
  have hstr : number.to_string ⟨n, p, sgn⟩ false =
      (if (decide (sgn < 0)) = true then ['-'] else []) ++
        ((Nat.digits 10 n).reverse ++ List.replicate p.toNat 0).map digit_char := by
    rw [to_string_nonneg n p sgn hp, hmap, List.append_assoc]
    congr 1
    by_cases hs : sgn < 0
    · norm_num [hs]
    · norm_num [hs]
  have hparse := from_string_digits
    ((Nat.digits 10 n).reverse ++ List.replicate p.toNat 0)
    (decide (sgn < 0)) hL hne hval
  refine ⟨⟨n * 10 ^ p.toNat, 0,
    if (decide (sgn < 0)) = true then -1 else 0⟩, ?_, ?_⟩
  · rw [hstr, hparse, hvv]
  · rw [to_string_nonneg (n * 10 ^ p.toNat) 0
      (if (decide (sgn < 0)) = true then -1 else 0) le_rfl]
    rw [to_string_nonneg n p sgn hp]
    rw [nat_to_chars_pow n p.toNat hn]
    have hsign : (if (if (decide (sgn < 0)) = true then (-1 : Int) else 0) < 0
        then ['-'] else []) = (if sgn < 0 then ['-'] else []) := by
      by_cases hs : sgn < 0
      · norm_num [hs]
      · norm_num [hs]
    rw [hsign]
    simp [List.append_assoc]

/-- Witness for C8 (amended) at `12×10¹` (serialization `"120"`). -/
theorem C8_witness :
    ∃ w, number.from_string (number.to_string ⟨12, 1, 0⟩ false) =
        Except.ok w ∧
      number.to_string w false = number.to_string ⟨12, 1, 0⟩ false :=
  C8_amended ⟨12, 1, 0⟩ (by decide) (by decide) (by decide)
